import Mathlib

/-! Formal model of the room/session registry and the signaling handlers of a
WebRTC group video-conferencing backend.  The definitions mirror
`backend/src/services/roomService.js` and `backend/src/sockets/signaling.js`:
JavaScript `Map` objects become association lists with JavaScript `Map`
semantics (`set` replaces in place or appends, `delete` removes every binding
of the key, `get` returns the first binding), and the mediasoup handles
(transports, producers, consumers) become opaque records carrying an id, a
kind and a flag saying whether their `close()` method throws.  Effectful
`close()` calls are traced explicitly as `CloseEvent` values, and the
handlers additionally trace their oracle consultations, registry mutations
and socket emissions as `TraceEv` values. -/

namespace VideoConf

/-- Lookup in an association list, modelling `Map.get`. -/
def getA {α : Type} (k : String) : List (String × α) → Option α
  | [] => none
  | p :: rest => if p.1 = k then some p.2 else getA k rest

/-- Update of an association list, modelling `Map.set`: the first binding of
the key is replaced in place, otherwise the new binding is appended. -/
def setA {α : Type} (k : String) (v : α) : List (String × α) → List (String × α)
  | [] => [(k, v)]
  | p :: rest => if p.1 = k then (k, v) :: rest else p :: setA k v rest

/-- Removal from an association list, modelling `Map.delete`. -/
def delA {α : Type} (k : String) : List (String × α) → List (String × α)
  | [] => []
  | p :: rest => if p.1 = k then delA k rest else p :: delA k rest

theorem getA_setA_self {α : Type} (k : String) (v : α) (l : List (String × α)) :
    getA k (setA k v l) = some v := by
  induction l with
  | nil => simp [setA, getA]
  | cons p rest ih =>
    by_cases h : p.1 = k
    · simp [setA, h, getA]
    · simp [setA, h, getA, ih]

theorem getA_setA_ne {α : Type} {k k2 : String} (h : k2 ≠ k) (v : α)
    (l : List (String × α)) : getA k2 (setA k v l) = getA k2 l := by
  have hk2 : ¬ (k = k2) := fun hh => h hh.symm
  induction l with
  | nil => simp [setA, getA, hk2]
  | cons p rest ih =>
    by_cases hp : p.1 = k
    · have hp2 : ¬ (p.1 = k2) := fun hh => h (hh.symm.trans hp)
      simp [setA, hp, getA, hp2, hk2]
    · simp only [setA, hp, if_false, getA]
      by_cases hq : p.1 = k2
      · simp [hq]
      · simp [hq, ih]

theorem getA_delA_self {α : Type} (k : String) (l : List (String × α)) :
    getA k (delA k l) = none := by
  induction l with
  | nil => simp [delA, getA]
  | cons p rest ih =>
    by_cases h : p.1 = k
    · simp [delA, h, ih]
    · simp [delA, h, getA, ih]

theorem getA_delA_ne {α : Type} {k k2 : String} (h : k2 ≠ k)
    (l : List (String × α)) : getA k2 (delA k l) = getA k2 l := by
  have hk2 : ¬ (k = k2) := fun hh => h hh.symm
  induction l with
  | nil => simp [delA]
  | cons p rest ih =>
    by_cases hp : p.1 = k
    · have hp2 : ¬ (p.1 = k2) := fun hh => h (hh.symm.trans hp)
      simp [delA, hp, getA, hp2, hk2, ih]
    · simp only [delA, hp, if_false, getA]
      by_cases hq : p.1 = k2
      · simp [hq]
      · simp [hq, ih]

theorem setA_setA {α : Type} (k : String) (v w : α) (l : List (String × α)) :
    setA k v (setA k w l) = setA k v l := by
  induction l with
  | nil => simp [setA]
  | cons p rest ih =>
    by_cases h : p.1 = k
    · simp [setA, h]
    · simp [setA, h, ih]

theorem mem_setA {α : Type} {x : String × α} {k : String} {v : α}
    {l : List (String × α)} (hx : x ∈ setA k v l) : x = (k, v) ∨ x ∈ l := by
  induction l with
  | nil => simpa [setA] using hx
  | cons p rest ih =>
    by_cases h : p.1 = k
    · rw [setA, if_pos h] at hx
      rcases List.mem_cons.mp hx with h1 | h1
      · exact Or.inl h1
      · exact Or.inr (List.mem_cons.mpr (Or.inr h1))
    · rw [setA, if_neg h] at hx
      rcases List.mem_cons.mp hx with h1 | h1
      · exact Or.inr (List.mem_cons.mpr (Or.inl h1))
      · rcases ih h1 with h2 | h2
        · exact Or.inl h2
        · exact Or.inr (List.mem_cons.mpr (Or.inr h2))

theorem mem_delA {α : Type} {x : String × α} {k : String}
    {l : List (String × α)} : x ∈ delA k l ↔ x ∈ l ∧ x.1 ≠ k := by
  induction l with
  | nil => simp [delA]
  | cons p rest ih =>
    by_cases h : p.1 = k
    · rw [delA, if_pos h, ih]
      constructor
      · rintro ⟨h1, h2⟩
        exact ⟨List.mem_cons.mpr (Or.inr h1), h2⟩
      · rintro ⟨h1, h2⟩
        rcases List.mem_cons.mp h1 with h3 | h3
        · exact absurd (h3 ▸ h) h2
        · exact ⟨h3, h2⟩
    · rw [delA, if_neg h]
      constructor
      · intro h1
        rcases List.mem_cons.mp h1 with h3 | h3
        · exact ⟨List.mem_cons.mpr (Or.inl h3), h3 ▸ h⟩
        · rcases ih.mp h3 with ⟨h4, h5⟩
          exact ⟨List.mem_cons.mpr (Or.inr h4), h5⟩
      · rintro ⟨h1, h2⟩
        rcases List.mem_cons.mp h1 with h3 | h3
        · exact List.mem_cons.mpr (Or.inl h3)
        · exact List.mem_cons.mpr (Or.inr (ih.mpr ⟨h3, h2⟩))

theorem setA_ne_nil {α : Type} (k : String) (v : α) (l : List (String × α)) :
    setA k v l ≠ [] := by
  cases l with
  | nil => simp [setA]
  | cons p rest =>
    by_cases h : p.1 = k <;> simp [setA, h]

theorem setA_eq_append {α : Type} {k : String} {l : List (String × α)}
    (h : getA k l = none) (v : α) : setA k v l = l ++ [(k, v)] := by
  induction l with
  | nil => simp [setA]
  | cons p rest ih =>
    by_cases hp : p.1 = k
    · rw [getA, if_pos hp] at h
      exact absurd h (by simp)
    · rw [getA, if_neg hp] at h
      simp [setA, hp, ih h]

theorem mem_of_getA {α : Type} {k : String} {v : α} {l : List (String × α)}
    (h : getA k l = some v) : (k, v) ∈ l := by
  induction l with
  | nil => simp [getA] at h
  | cons p rest ih =>
    by_cases hp : p.1 = k
    · rw [getA, if_pos hp] at h
      have : p = (k, v) := by
        cases p
        simp_all
      exact List.mem_cons.mpr (Or.inl this.symm)
    · rw [getA, if_neg hp] at h
      exact List.mem_cons.mpr (Or.inr (ih h))

theorem getA_eq_none_iff {α : Type} {k : String} {l : List (String × α)} :
    getA k l = none ↔ k ∉ l.map Prod.fst := by
  induction l with
  | nil => simp [getA]
  | cons p rest ih =>
    by_cases hp : p.1 = k
    · simp [getA, hp]
    · have hk : ¬ (k = p.1) := fun hh => hp hh.symm
      simp [getA, hp, ih, hk]

theorem getA_append {α : Type} (k : String) (l m : List (String × α)) :
    getA k (l ++ m) =
      (match getA k l with
       | some v => some v
       | none => getA k m) := by
  induction l with
  | nil => simp [getA]
  | cons p rest ih =>
    by_cases hp : p.1 = k
    · simp [getA, hp]
    · simp [getA, hp, ih]

theorem nodup_keys_setA {α : Type} {k : String} {v : α} {l : List (String × α)}
    (h : (l.map Prod.fst).Nodup) : ((setA k v l).map Prod.fst).Nodup := by
  induction l with
  | nil => simp [setA]
  | cons p rest ih =>
    rw [List.map_cons, List.nodup_cons] at h
    by_cases hp : p.1 = k
    · rw [setA, if_pos hp]
      rw [List.map_cons, List.nodup_cons]
      exact ⟨hp ▸ h.1, h.2⟩
    · rw [setA, if_neg hp]
      rw [List.map_cons, List.nodup_cons]
      refine ⟨?_, ih h.2⟩
      intro hmem
      rcases List.mem_map.mp hmem with ⟨x, hx, hfx⟩
      rcases mem_setA hx with h1 | h1
      · exact hp (by rw [← hfx, h1])
      · exact h.1 (hfx ▸ List.mem_map.mpr ⟨x, h1, rfl⟩)

theorem nodup_keys_delA {α : Type} {k : String} {l : List (String × α)}
    (h : (l.map Prod.fst).Nodup) : ((delA k l).map Prod.fst).Nodup := by
  induction l with
  | nil => simp [delA]
  | cons p rest ih =>
    rw [List.map_cons, List.nodup_cons] at h
    by_cases hp : p.1 = k
    · rw [delA, if_pos hp]
      exact ih h.2
    · rw [delA, if_neg hp]
      rw [List.map_cons, List.nodup_cons]
      refine ⟨?_, ih h.2⟩
      intro hmem
      rcases List.mem_map.mp hmem with ⟨x, hx, hfx⟩
      exact h.1 (hfx ▸ List.mem_map.mpr ⟨x, (mem_delA.mp hx).1, rfl⟩)

theorem delA_eq_self {α : Type} {k : String} {l : List (String × α)}
    (h : ∀ x ∈ l, x.1 ≠ k) : delA k l = l := by
  induction l with
  | nil => rfl
  | cons p rest ih =>
    rw [delA, if_neg (h p (List.mem_cons.mpr (Or.inl rfl))),
      ih (fun x hx => h x (List.mem_cons.mpr (Or.inr hx)))]

theorem countP_delA {α : Type} {k : String} {v : α} {l : List (String × α)}
    (hnd : (l.map Prod.fst).Nodup) (hget : getA k l = some v)
    (p : String × α → Bool) :
    l.countP p = (delA k l).countP p + (if p (k, v) then 1 else 0) := by
  induction l with
  | nil => simp [getA] at hget
  | cons q rest ih =>
    rw [List.map_cons, List.nodup_cons] at hnd
    by_cases hq : q.1 = k
    · rw [getA, if_pos hq] at hget
      have hqv : q = (k, v) := by
        cases q
        simp_all
      have hrest : delA k rest = rest := by
        refine delA_eq_self ?_
        intro x hx hxk
        refine hnd.1 ?_
        rw [hq, ← hxk]
        exact List.mem_map.mpr ⟨x, hx, rfl⟩
      rw [delA, if_pos hq, hrest, hqv, List.countP_cons]
    · rw [getA, if_neg hq] at hget
      rw [delA, if_neg hq]
      rw [List.countP_cons, List.countP_cons, ih hnd.2 hget]
      omega

theorem two_le_countP {α : Type} {a b : α} {l : List α} {p : α → Bool}
    (ha : a ∈ l) (hb : b ∈ l) (hne : a ≠ b) (hpa : p a) (hpb : p b) :
    2 ≤ l.countP p := by
  induction l with
  | nil => simp at ha
  | cons q rest ih =>
    rw [List.countP_cons]
    rcases List.mem_cons.mp ha with h1 | h1
    · rcases List.mem_cons.mp hb with h2 | h2
      · exact absurd (h1.trans h2.symm) hne
      · have hc : 0 < rest.countP p := List.countP_pos_iff.mpr ⟨b, h2, hpb⟩
        have hpq : p q = true := h1 ▸ hpa
        rw [if_pos hpq]
        omega
    · rcases List.mem_cons.mp hb with h2 | h2
      · have hc : 0 < rest.countP p := List.countP_pos_iff.mpr ⟨a, h1, hpa⟩
        have hpq : p q = true := h2 ▸ hpb
        rw [if_pos hpq]
        omega
      · have hc := ih h1 h2
        by_cases hpq : p q = true
        · rw [if_pos hpq]
          omega
        · rw [if_neg hpq]
          omega

theorem mem_setA_nodup {α : Type} {x : String × α} {k : String} {v : α}
    {l : List (String × α)} (hnd : (l.map Prod.fst).Nodup)
    (hx : x ∈ setA k v l) : x = (k, v) ∨ (x ∈ l ∧ x.1 ≠ k) := by
  induction l with
  | nil => simpa [setA] using hx
  | cons p rest ih =>
    rw [List.map_cons, List.nodup_cons] at hnd
    by_cases h : p.1 = k
    · rw [setA, if_pos h] at hx
      rcases List.mem_cons.mp hx with h1 | h1
      · exact Or.inl h1
      · refine Or.inr ⟨List.mem_cons.mpr (Or.inr h1), ?_⟩
        intro hxk
        exact hnd.1 (h ▸ hxk ▸ List.mem_map.mpr ⟨x, h1, rfl⟩)
    · rw [setA, if_neg h] at hx
      rcases List.mem_cons.mp hx with h1 | h1
      · exact Or.inr ⟨List.mem_cons.mpr (Or.inl h1), h1 ▸ h⟩
      · rcases ih hnd.2 h1 with h2 | h2
        · exact Or.inl h2
        · exact Or.inr ⟨List.mem_cons.mpr (Or.inr h2.1), h2.2⟩

/-- Opaque mediasoup handle (transport, producer or consumer).  Only the
fields the registry reads are modelled: the `id`, the producer `kind`, and a
flag recording whether the handle's `close()` method throws when called. -/
structure Handle where
  id : String
  kind : String
  closeFails : Bool
deriving Repr, DecidableEq

/-- Descriptive user data passed to `addUserToRoom` as `userInfo`
(`socket.user` in the handlers); only `name` and `role` are read. -/
structure UserInfo where
  name : String
  role : String
deriving Repr, DecidableEq

/-- Participant record built by `addUserToRoom`.  The JavaScript `joinedAt`
`Date` and the opaque `rtpCapabilities` payload are modelled as absent /
an optional string. -/
structure Participant where
  userId : String
  socketId : String
  name : String
  role : String
  transports : List (String × Handle)
  producers : List (String × Handle)
  consumers : List (String × Handle)
  rtpCapabilities : Option String
deriving Repr, DecidableEq

/-- Room record created by `createRoom`; the `createdAt` `Date` is not
modelled. -/
structure Room where
  id : String
  participants : List (String × Participant)
deriving Repr, DecidableEq

/-- Value stored in the `users` map (the connection index):
`{ userId, roomId, ...userInfo }`. -/
structure UserEntry where
  userId : String
  roomId : String
  name : String
  role : String
deriving Repr, DecidableEq

/-- The `RoomService` state: `rooms` maps roomId to Room and `users` maps
socketId to the owning (roomId, userId) plus user info. -/
structure RoomService where
  rooms : List (String × Room)
  users : List (String × UserEntry)
deriving Repr, DecidableEq

/-- State built by the `RoomService` constructor: two empty maps. -/
def RoomService.init : RoomService := { rooms := [], users := [] }

/-- Traced effect of calling `close()` on a stored handle; `failed` records
whether that particular `close()` threw (the exception is caught and logged
by `cleanupParticipant`, never propagated). -/
inductive CloseEvent where
  | closeConsumer (id : String) (failed : Bool)
  | closeProducer (id : String) (failed : Bool)
  | closeTransport (id : String) (failed : Bool)
deriving Repr, DecidableEq

def CloseEvent.isConsumerClose : CloseEvent → Bool
  | closeConsumer _ _ => true
  | _ => false

def CloseEvent.isProducerClose : CloseEvent → Bool
  | closeProducer _ _ => true
  | _ => false

def CloseEvent.isTransportClose : CloseEvent → Bool
  | closeTransport _ _ => true
  | _ => false

/-- `createRoom(roomId)`: create the room if absent, then return the stored
room. -/
def createRoom (s : RoomService) (roomId : String) : RoomService × Room :=
  match getA roomId s.rooms with
  | some room => (s, room)
  | none =>
    let room : Room := { id := roomId, participants := [] }
    ({ s with rooms := setA roomId room s.rooms }, room)

/-- `getRoom(roomId)`. -/
def getRoom (s : RoomService) (roomId : String) : Option Room :=
  getA roomId s.rooms

/-- `addUserToRoom(roomId, userId, socketId, userInfo)`: ensures the room,
inserts a fresh participant record (empty handle maps), and records the
socket in the connection index.  The source calls no `close()` here, so the
traced close-event list is empty. -/
def addUserToRoom (s : RoomService) (roomId userId socketId : String)
    (userInfo : UserInfo) : RoomService × Participant × List CloseEvent :=
  let c := createRoom s roomId
  let participant : Participant :=
    { userId := userId, socketId := socketId, name := userInfo.name,
      role := userInfo.role, transports := [], producers := [],
      consumers := [], rtpCapabilities := none }
  let room2 : Room :=
    { c.2 with participants := setA userId participant c.2.participants }
  let s2 : RoomService :=
    { rooms := setA roomId room2 c.1.rooms,
      users := setA socketId
        { userId := userId, roomId := roomId, name := userInfo.name,
          role := userInfo.role } c.1.users }
  (s2, participant, [])

/-- `cleanupParticipant(participant)`: closes every consumer, then every
producer, then every transport, catching and logging each individual
`close()` failure, and clears the three maps.  Every attempted close is
traced, with its failure flag. -/
def cleanupParticipant (p : Participant) : Participant × List CloseEvent :=
  let consumerEvents := p.consumers.map
    (fun e => CloseEvent.closeConsumer e.2.id e.2.closeFails)
  let producerEvents := p.producers.map
    (fun e => CloseEvent.closeProducer e.2.id e.2.closeFails)
  let transportEvents := p.transports.map
    (fun e => CloseEvent.closeTransport e.2.id e.2.closeFails)
  ({ p with consumers := [], producers := [], transports := [] },
    consumerEvents ++ producerEvents ++ transportEvents)

/-- `removeUserFromRoom(socketId)`: resolves the connection index, cleans up
and removes the participant, deletes the room if it became empty, removes
the index entry, and returns the index entry (or `none` when unknown). -/
def removeUserFromRoom (s : RoomService) (socketId : String) :
    RoomService × Option UserEntry × List CloseEvent :=
  match getA socketId s.users with
  | none => (s, none, [])
  | some user =>
    match getA user.roomId s.rooms with
    | none => ({ s with users := delA socketId s.users }, some user, [])
    | some room =>
      let cleaned : Room × List CloseEvent :=
        match getA user.userId room.participants with
        | none => (room, [])
        | some participant =>
          ({ room with participants := delA user.userId room.participants },
            (cleanupParticipant participant).2)
      let rooms2 :=
        if cleaned.1.participants.isEmpty then delA user.roomId s.rooms
        else setA user.roomId cleaned.1 s.rooms
      ({ rooms := rooms2, users := delA socketId s.users },
        some user, cleaned.2)

/-- `getUserBySocketId(socketId)`. -/
def getUserBySocketId (s : RoomService) (socketId : String) : Option UserEntry :=
  getA socketId s.users

/-- `getParticipant(roomId, userId)`. -/
def getParticipant (s : RoomService) (roomId userId : String) :
    Option Participant :=
  match getRoom s roomId with
  | some room => getA userId room.participants
  | none => none

/-- Shared shape of `addTransport` / `addProducer` / `addConsumer` /
`setRtpCapabilities`: look the participant up via `getParticipant` and, when
found, mutate the participant record in place (written back through the
room map). -/
def modifyParticipant (s : RoomService) (roomId userId : String)
    (f : Participant → Participant) : RoomService :=
  match getA roomId s.rooms with
  | none => s
  | some room =>
    match getA userId room.participants with
    | none => s
    | some p =>
      { s with rooms :=
          (setA roomId
            { room with participants := setA userId (f p) room.participants }
            s.rooms) }

/-- `addTransport(roomId, userId, transport)`. -/
def addTransport (s : RoomService) (roomId userId : String) (t : Handle) :
    RoomService :=
  modifyParticipant s roomId userId
    (fun p => { p with transports := setA t.id t p.transports })

/-- `getTransport(roomId, userId, transportId)`. -/
def getTransport (s : RoomService) (roomId userId transportId : String) :
    Option Handle :=
  match getParticipant s roomId userId with
  | some p => getA transportId p.transports
  | none => none

/-- `addProducer(roomId, userId, producer)`. -/
def addProducer (s : RoomService) (roomId userId : String) (producer : Handle) :
    RoomService :=
  modifyParticipant s roomId userId
    (fun p => { p with producers := setA producer.id producer p.producers })

/-- `addConsumer(roomId, userId, consumer)`. -/
def addConsumer (s : RoomService) (roomId userId : String) (consumer : Handle) :
    RoomService :=
  modifyParticipant s roomId userId
    (fun p => { p with consumers := setA consumer.id consumer p.consumers })

/-- `setRtpCapabilities(roomId, userId, rtpCapabilities)`. -/
def setRtpCapabilities (s : RoomService) (roomId userId : String)
    (caps : String) : RoomService :=
  modifyParticipant s roomId userId
    (fun p => { p with rtpCapabilities := some caps })

/-- Entry of the list returned by `getRoomProducers`. -/
structure ProducerInfo where
  id : String
  kind : String
  userId : String
  userName : String
  userRole : String
deriving Repr, DecidableEq

/-- `getRoomProducers(roomId, excludeUserId)`: flattens the producers of
every participant whose map key differs from `excludeUserId`. -/
def getRoomProducers (s : RoomService) (roomId : String)
    (excludeUserId : Option String) : List ProducerInfo :=
  match getA roomId s.rooms with
  | none => []
  | some room =>
    room.participants.flatMap (fun entry =>
      if some entry.1 = excludeUserId then []
      else entry.2.producers.map (fun pe =>
        { id := pe.2.id, kind := pe.2.kind, userId := entry.1,
          userName := entry.2.name, userRole := entry.2.role }))

/-- `roomExists(roomId)`. -/
def roomExists (s : RoomService) (roomId : String) : Bool :=
  (getA roomId s.rooms).isSome

/-- Authenticated identity attached to the socket by the auth middleware
(`socket.user`); only the fields the handlers read are modelled. -/
structure SocketUser where
  uid : String
  name : String
  role : String
deriving Repr, DecidableEq

/-- Chat message record built by the `chat:message` handler.  `id` is
`Date.now().toString()` and `timestamp` is `new Date().toISOString()`;
both are taken as inputs of the model. -/
structure ChatMessage where
  id : String
  userId : String
  name : String
  role : String
  text : String
  timestamp : String
deriving Repr, DecidableEq

/-- Acknowledgement passed to the client callback.  Success payloads that
lie outside the registry model (rtpCapabilities, transport parameters,
consumer parameters) are elided; the join payload keeps its producer list
and the chat payload keeps its message. -/
inductive Ack where
  | ok
  | okJoin (existingProducers : List ProducerInfo)
  | okMessage (message : ChatMessage)
  | error (msg : String)
deriving Repr, DecidableEq

def Ack.isError : Ack → Bool
  | error _ => true
  | _ => false

/-- Trace of the externally visible actions a handler performs, in program
order: consultations of the scheduling oracle (`canUserAccessRoom`),
registry mutations, and socket emissions.  `emitUserJoined`/`emitUserLeft`
model `socket.to(roomId).emit(...)` (everyone in the room except the acting
socket); `emitChatMessage` models `io.to(roomId).emit(...)` (everyone in
the room, the sender included). -/
inductive TraceEv where
  | oracleConsult (uid roomId role : String)
  | registryMutation
  | emitUserJoined (roomId userId name role : String)
  | emitUserLeft (roomId userId name role : String)
  | emitChatMessage (roomId : String) (message : ChatMessage)
deriving Repr, DecidableEq

def TraceEv.isConsult : TraceEv → Bool
  | oracleConsult _ _ _ => true
  | _ => false

def TraceEv.isMutation : TraceEv → Bool
  | registryMutation => true
  | _ => false

def TraceEv.isUserLeft : TraceEv → Bool
  | emitUserLeft _ _ _ _ => true
  | _ => false

/-- Holds when every registry mutation in the trace happens after the first
scheduling-oracle consultation: the prefix of the trace before the first
consultation contains no mutation. -/
def consultPrecedesMutation (tr : List TraceEv) : Bool :=
  (tr.takeWhile (fun e => !e.isConsult)).all (fun e => !e.isMutation)

/-- Server-side log lines the model keeps track of (only the chat
persistence warning matters to the claims). -/
inductive LogEv where
  | warnPersistFailed
deriving Repr, DecidableEq

/-- The sockets that receive an `io.to(roomId).emit(...)` broadcast: every
participant of the room (each joined socket was added to the socket.io room
by `socket.join(roomId)`). -/
def broadcastRecipients (s : RoomService) (roomId : String) : List String :=
  match getA roomId s.rooms with
  | none => []
  | some room => room.participants.map (fun e => e.2.socketId)

/-- The `createRoom` socket handler.  `canAccess` is the answer the
scheduling oracle would give for (uid, roomId, role); the oracle is only
consulted (traced) on the path that reaches the `await`. -/
def createRoomHandler (canAccess : Bool) (user : SocketUser)
    (socketId roomId : String) (s : RoomService) :
    RoomService × Ack × List TraceEv :=
  if user.role ≠ "teacher" then
    (s, Ack.error "Only teachers can create rooms", [])
  else if !canAccess then
    (s, Ack.error "You do not have permission to create this room",
      [TraceEv.oracleConsult user.uid roomId user.role])
  else
    let c := createRoom s roomId
    let a := addUserToRoom c.1 roomId user.uid socketId
      { name := user.name, role := user.role }
    (a.1, Ack.ok,
      [TraceEv.oracleConsult user.uid roomId user.role,
       TraceEv.registryMutation, TraceEv.registryMutation,
       TraceEv.emitUserJoined roomId user.uid user.name user.role])

/-- The `joinRoom` socket handler. -/
def joinRoomHandler (canAccess : Bool) (user : SocketUser)
    (socketId roomId : String) (s : RoomService) :
    RoomService × Ack × List TraceEv :=
  if !canAccess then
    (s, Ack.error "You do not have permission to join this room",
      [TraceEv.oracleConsult user.uid roomId user.role])
  else if !roomExists s roomId then
    (s, Ack.error "Room does not exist",
      [TraceEv.oracleConsult user.uid roomId user.role])
  else
    let a := addUserToRoom s roomId user.uid socketId
      { name := user.name, role := user.role }
    let existingProducers := getRoomProducers a.1 roomId (some user.uid)
    (a.1, Ack.okJoin existingProducers,
      [TraceEv.oracleConsult user.uid roomId user.role,
       TraceEv.registryMutation,
       TraceEv.emitUserJoined roomId user.uid user.name user.role])

/-- The `createWebRtcTransport` socket handler; `transport` is the handle
the media engine returns. -/
def createWebRtcTransportHandler (s : RoomService) (socketId : String)
    (transport : Handle) : RoomService × Ack :=
  match getUserBySocketId s socketId with
  | none => (s, Ack.error "User not found in any room")
  | some user => (addTransport s user.roomId user.userId transport, Ack.ok)

/-- The `produce` socket handler; `producer` is the handle
`transport.produce` returns. -/
def produceHandler (s : RoomService) (socketId transportId : String)
    (producer : Handle) : RoomService × Ack :=
  match getUserBySocketId s socketId with
  | none => (s, Ack.error "User not found in any room")
  | some user =>
    match getTransport s user.roomId user.userId transportId with
    | none => (s, Ack.error "Transport not found")
    | some _ => (addProducer s user.roomId user.userId producer, Ack.ok)

/-- The `consume` socket handler.  `canConsume` is the answer
`router.canConsume({producerId, rtpCapabilities})` would give and
`consumer` the handle `transport.consume` would return; the returned flag
records whether the media-engine `consume` call was made. -/
def consumeHandler (s : RoomService) (socketId transportId producerId : String)
    (canConsume : Bool) (consumer : Handle) : RoomService × Ack × Bool :=
  match getUserBySocketId s socketId with
  | none => (s, Ack.error "User not found in any room", false)
  | some user =>
    match getTransport s user.roomId user.userId transportId with
    | none => (s, Ack.error "Transport not found", false)
    | some _ =>
      if !canConsume then
        (s, Ack.error "Cannot consume this producer", false)
      else
        (addConsumer s user.roomId user.userId consumer, Ack.ok, true)

/-- The `setRtpCapabilities` socket handler. -/
def setRtpCapabilitiesHandler (s : RoomService) (socketId caps : String) :
    RoomService × Ack :=
  match getUserBySocketId s socketId with
  | none => (s, Ack.error "User not found in any room")
  | some user => (setRtpCapabilities s user.roomId user.userId caps, Ack.ok)

/-- Executable model of JavaScript `String.prototype.trim`: drop leading
and trailing whitespace characters. -/
def jsTrim (s : String) : String :=
  String.mk ((((s.data.dropWhile Char.isWhitespace).reverse).dropWhile
    Char.isWhitespace).reverse)

/-- The `chat:message` socket handler.  `persistOk` says whether the
external persistence block (schedule lookup plus Firestore write) succeeds;
its failure is caught, logged as a warning, and the handler proceeds
identically.  The handler never mutates the registry. -/
def chatMessageHandler (s : RoomService) (socketId text : String)
    (persistOk : Bool) (msgId timestamp : String) :
    Ack × List TraceEv × List LogEv :=
  match getUserBySocketId s socketId with
  | none => (Ack.error "User not found in any room", [], [])
  | some user =>
    if (jsTrim text).length = 0 then
      (Ack.error "Message text is required", [], [])
    else
      let message : ChatMessage :=
        { id := msgId, userId := user.userId, name := user.name,
          role := user.role, text := jsTrim text, timestamp := timestamp }
      let logs := if persistOk then [] else [LogEv.warnPersistFailed]
      (Ack.okMessage message,
        [TraceEv.emitChatMessage user.roomId message], logs)

/-- The `leaveRoom` socket handler.  When `removeUserFromRoom` returns
`null` the handler does nothing: the callback is never invoked and nothing
is emitted. -/
def leaveRoomHandler (s : RoomService) (socketId : String) :
    RoomService × Option Ack × List TraceEv :=
  let r := removeUserFromRoom s socketId
  match r.2.1 with
  | some user =>
    (r.1, some Ack.ok,
      [TraceEv.registryMutation,
       TraceEv.emitUserLeft user.roomId user.userId user.name user.role])
  | none => (r.1, none, [])

/-- The `disconnect` socket handler (no client callback exists for it). -/
def disconnectHandler (s : RoomService) (socketId : String) :
    RoomService × List TraceEv :=
  let r := removeUserFromRoom s socketId
  match r.2.1 with
  | some user =>
    (r.1,
      [TraceEv.registryMutation,
       TraceEv.emitUserLeft user.roomId user.userId user.name user.role])
  | none => (r.1, [])

/-- No room stored in the registry has an empty participant map. -/
def noEmptyRooms (s : RoomService) : Prop :=
  ∀ e ∈ s.rooms, e.2.participants ≠ []

/-- Internal strengthening of `noEmptyRooms`: reachable states also have
duplicate-free room keys (JavaScript `Map` keys are unique). -/
def roomsInv (s : RoomService) : Prop :=
  noEmptyRooms s ∧ (s.rooms.map Prod.fst).Nodup

/-- One request-level operation on the signaling endpoint, carrying the
answers of the external collaborators (oracle, media engine) as data. -/
inductive Op where
  | createRoomReq (canAccess : Bool) (user : SocketUser) (socketId roomId : String)
  | joinRoomReq (canAccess : Bool) (user : SocketUser) (socketId roomId : String)
  | createWebRtcTransportReq (socketId : String) (transport : Handle)
  | produceReq (socketId transportId : String) (producer : Handle)
  | consumeReq (socketId transportId producerId : String) (canConsume : Bool)
      (consumer : Handle)
  | setRtpCapabilitiesReq (socketId caps : String)
  | chatMessageReq (socketId text : String) (persistOk : Bool)
      (msgId timestamp : String)
  | leaveRoomReq (socketId : String)
  | disconnectReq (socketId : String)
deriving Repr, DecidableEq

/-- Registry state after one handler runs to completion (the `chat:message`
handler never mutates the registry). -/
def step (s : RoomService) : Op → RoomService
  | Op.createRoomReq ca u sock rid => (createRoomHandler ca u sock rid s).1
  | Op.joinRoomReq ca u sock rid => (joinRoomHandler ca u sock rid s).1
  | Op.createWebRtcTransportReq sock t =>
      (createWebRtcTransportHandler s sock t).1
  | Op.produceReq sock tid pr => (produceHandler s sock tid pr).1
  | Op.consumeReq sock tid pid cc c => (consumeHandler s sock tid pid cc c).1
  | Op.setRtpCapabilitiesReq sock caps =>
      (setRtpCapabilitiesHandler s sock caps).1
  | Op.chatMessageReq _ _ _ _ _ => s
  | Op.leaveRoomReq sock => (leaveRoomHandler s sock).1
  | Op.disconnectReq sock => (disconnectHandler s sock).1

/-- Registry state after a whole sequence of handler runs. -/
def run : RoomService → List Op → RoomService
  | s, [] => s
  | s, op :: rest => run (step s op) rest

theorem roomsInv_addUserToRoom {s : RoomService} {rid : String}
    (hne : ∀ e ∈ s.rooms, e.1 ≠ rid → e.2.participants ≠ [])
    (hnd : (s.rooms.map Prod.fst).Nodup) (uid sock : String) (info : UserInfo) :
    roomsInv (addUserToRoom s rid uid sock info).1 := by
  simp only [addUserToRoom, createRoom]
  cases hg : getA rid s.rooms with
  | some room =>
    simp only [hg]
    constructor
    · intro e he
      rcases mem_setA_nodup hnd he with h1 | h1
      · rw [h1]
        exact setA_ne_nil _ _ _
      · exact hne e h1.1 h1.2
    · exact nodup_keys_setA hnd
  | none =>
    simp only [hg, setA_setA]
    constructor
    · intro e he
      rcases mem_setA_nodup hnd he with h1 | h1
      · rw [h1]
        exact setA_ne_nil _ _ _
      · exact hne e h1.1 h1.2
    · exact nodup_keys_setA hnd

theorem roomsInv_rooms_branch {rl : List (String × Room)}
    (hne : ∀ e ∈ rl, e.2.participants ≠ [])
    (hnd : (rl.map Prod.fst).Nodup) (rid : String) (room2 : Room) :
    (∀ e ∈ (if room2.participants.isEmpty then delA rid rl
            else setA rid room2 rl), e.2.participants ≠ []) ∧
      (((if room2.participants.isEmpty then delA rid rl
         else setA rid room2 rl).map Prod.fst).Nodup) := by
  split_ifs with hemp
  · constructor
    · intro e he
      exact hne e (mem_delA.mp he).1
    · exact nodup_keys_delA hnd
  · constructor
    · intro e he
      rcases mem_setA_nodup hnd he with h1 | h1
      · rw [h1]
        intro hnil
        exact hemp (by rw [hnil]; rfl)
      · exact hne e h1.1
    · exact nodup_keys_setA hnd

theorem roomsInv_removeUserFromRoom {s : RoomService} (h : roomsInv s)
    (sock : String) : roomsInv (removeUserFromRoom s sock).1 := by
  obtain ⟨hne, hnd⟩ := h
  simp only [removeUserFromRoom]
  cases hu : getA sock s.users with
  | none => exact ⟨hne, hnd⟩
  | some user =>
    simp only [hu]
    cases hr : getA user.roomId s.rooms with
    | none => exact ⟨hne, hnd⟩
    | some room =>
      simp only [hr]
      cases hp : getA user.userId room.participants with
      | none =>
        simp only [hp]
        exact roomsInv_rooms_branch hne hnd user.roomId room
      | some part =>
        simp only [hp]
        exact roomsInv_rooms_branch hne hnd user.roomId
          { id := room.id, participants := delA user.userId room.participants }

theorem roomsInv_modifyParticipant {s : RoomService} (h : roomsInv s)
    (rid uid : String) (f : Participant → Participant) :
    roomsInv (modifyParticipant s rid uid f) := by
  obtain ⟨hne, hnd⟩ := h
  simp only [modifyParticipant]
  cases hg : getA rid s.rooms with
  | none => exact ⟨hne, hnd⟩
  | some room =>
    simp only [hg]
    cases hp : getA uid room.participants with
    | none => exact ⟨hne, hnd⟩
    | some p =>
      simp only [hp]
      constructor
      · intro e he
        rcases mem_setA_nodup hnd he with h1 | h1
        · rw [h1]
          exact setA_ne_nil _ _ _
        · exact hne e h1.1
      · exact nodup_keys_setA hnd

theorem roomsInv_step {s : RoomService} (h : roomsInv s) (op : Op) :
    roomsInv (step s op) := by
  cases op with
  | createRoomReq ca u sock rid =>
    simp only [step, createRoomHandler]
    split
    · exact h
    · split
      · exact h
      · refine roomsInv_addUserToRoom ?_ ?_ u.uid sock _
        · intro e he hner
          simp only [createRoom] at he
          cases hg : getA rid s.rooms with
          | some room =>
            rw [hg] at he
            exact h.1 e he
          | none =>
            rw [hg] at he
            rcases mem_setA he with h1 | h1
            · exact absurd (by rw [h1]) hner
            · exact h.1 e h1
        · simp only [createRoom]
          cases hg : getA rid s.rooms with
          | some room => exact h.2
          | none => exact nodup_keys_setA h.2
  | joinRoomReq ca u sock rid =>
    simp only [step, joinRoomHandler]
    split
    · exact h
    · split
      · exact h
      · exact roomsInv_addUserToRoom
          (fun e he _ => h.1 e he) h.2 u.uid sock
          { name := u.name, role := u.role }
  | createWebRtcTransportReq sock t =>
    simp only [step, createWebRtcTransportHandler]
    cases hu : getUserBySocketId s sock with
    | none => exact h
    | some user =>
      simp only [hu]
      exact roomsInv_modifyParticipant h _ _ _
  | produceReq sock tid pr =>
    simp only [step, produceHandler]
    cases hu : getUserBySocketId s sock with
    | none => exact h
    | some user =>
      simp only [hu]
      cases ht : getTransport s user.roomId user.userId tid with
      | none => exact h
      | some t =>
        simp only [ht]
        exact roomsInv_modifyParticipant h _ _ _
  | consumeReq sock tid pid cc c =>
    simp only [step, consumeHandler]
    cases hu : getUserBySocketId s sock with
    | none => exact h
    | some user =>
      simp only [hu]
      cases ht : getTransport s user.roomId user.userId tid with
      | none => exact h
      | some t =>
        simp only [ht]
        split
        · exact h
        · exact roomsInv_modifyParticipant h _ _ _
  | setRtpCapabilitiesReq sock caps =>
    simp only [step, setRtpCapabilitiesHandler]
    cases hu : getUserBySocketId s sock with
    | none => exact h
    | some user =>
      simp only [hu]
      exact roomsInv_modifyParticipant h _ _ _
  | chatMessageReq sock text pOk mid ts => exact h
  | leaveRoomReq sock =>
    have hrem := roomsInv_removeUserFromRoom h sock
    simp only [step, leaveRoomHandler]
    cases hu : (removeUserFromRoom s sock).2.1 with
    | none => exact hrem
    | some user => exact hrem
  | disconnectReq sock =>
    have hrem := roomsInv_removeUserFromRoom h sock
    simp only [step, disconnectHandler]
    cases hu : (removeUserFromRoom s sock).2.1 with
    | none => exact hrem
    | some user => exact hrem

theorem roomsInv_run {s : RoomService} (h : roomsInv s) (ops : List Op) :
    roomsInv (run s ops) := by
  induction ops generalizing s with
  | nil => exact h
  | cons op rest ih => exact ih (roomsInv_step h op)

theorem getRoom_addUserToRoom_isSome (s : RoomService) (rid uid sock : String)
    (info : UserInfo) :
    (getRoom (addUserToRoom s rid uid sock info).1 rid).isSome = true := by
  simp [addUserToRoom, getRoom, getA_setA_self]

/-- C1: Room lifecycle round-trip and emptiness invariant: every state
reachable from the initial registry by complete handler runs has no
zero-participant room; a room is present right after a successful
create/join into it; and removing the last participant of a room leaves
`getRoom` absent for it. -/
theorem C1_room_lifecycle :
    (∀ ops : List Op, noEmptyRooms (run RoomService.init ops)) ∧
    (∀ (user : SocketUser) (socketId roomId : String) (s : RoomService),
      user.role = "teacher" →
      (getRoom (createRoomHandler true user socketId roomId s).1 roomId).isSome
        = true) ∧
    (∀ (user : SocketUser) (socketId roomId : String) (s : RoomService),
      roomExists s roomId = true →
      (getRoom (joinRoomHandler true user socketId roomId s).1 roomId).isSome
        = true) ∧
    (∀ (s : RoomService) (socketId : String) (u : UserEntry) (room : Room)
      (p : Participant),
      getA socketId s.users = some u →
      getA u.roomId s.rooms = some room →
      room.participants = [(u.userId, p)] →
      getRoom (removeUserFromRoom s socketId).1 u.roomId = none) := by
  refine ⟨?_, ?_, ?_, ?_⟩
  · intro ops
    have hinit : roomsInv RoomService.init := by
      constructor
      · intro e he
        simp [RoomService.init] at he
      · simp [RoomService.init]
    exact (roomsInv_run hinit ops).1
  · intro user sock rid s h
    simp [createRoomHandler, h]
    exact getRoom_addUserToRoom_isSome _ _ _ _ _
  · intro user sock rid s hex
    simp [joinRoomHandler, hex]
    exact getRoom_addUserToRoom_isSome _ _ _ _ _
  · intro s sock u room p h1 h2 h3
    have hget : getA u.userId room.participants = some p := by
      rw [h3]
      simp [getA]
    have hdel : delA u.userId room.participants = [] := by
      rw [h3]
      simp [delA]
    simp only [removeUserFromRoom, h1, h2, hget, hdel, getRoom]
    simp [getA_delA_self]

/-- Concrete one-student world used by several witnesses. -/
def annPart : Participant :=
  { userId := "u1", socketId := "sock1", name := "Ann", role := "student",
    transports := [], producers := [], consumers := [],
    rtpCapabilities := none }

def annEntry : UserEntry :=
  { userId := "u1", roomId := "r1", name := "Ann", role := "student" }

def annRoom : Room := { id := "r1", participants := [("u1", annPart)] }

def annState : RoomService :=
  { rooms := [("r1", annRoom)], users := [("sock1", annEntry)] }

theorem C1_room_lifecycle_witness :
    (getRoom (createRoomHandler true
      { uid := "t1", name := "Teacher", role := "teacher" }
      "sock1" "r1" RoomService.init).1 "r1").isSome = true ∧
    getRoom (removeUserFromRoom annState "sock1").1 "r1" = none := by
  constructor
  · exact C1_room_lifecycle.2.1
      { uid := "t1", name := "Teacher", role := "teacher" }
      "sock1" "r1" RoomService.init rfl
  · exact C1_room_lifecycle.2.2.2 annState "sock1" annEntry annRoom annPart
      rfl rfl rfl

/-- C3: `cleanupParticipant` terminates with the consumer, producer and
transport maps all empty, traces a close (with its caught failure flag) for
every stored handle — so a single failing `close()` never prevents the
others — and the trace closes all consumers first, then all producers, then
all transports. -/
theorem C3_cleanup_contract (p : Participant) :
    (cleanupParticipant p).1.consumers = [] ∧
    (cleanupParticipant p).1.producers = [] ∧
    (cleanupParticipant p).1.transports = [] ∧
    (∀ e ∈ p.consumers,
      CloseEvent.closeConsumer e.2.id e.2.closeFails ∈ (cleanupParticipant p).2) ∧
    (∀ e ∈ p.producers,
      CloseEvent.closeProducer e.2.id e.2.closeFails ∈ (cleanupParticipant p).2) ∧
    (∀ e ∈ p.transports,
      CloseEvent.closeTransport e.2.id e.2.closeFails ∈ (cleanupParticipant p).2) ∧
    (∃ l1 l2 l3, (cleanupParticipant p).2 = l1 ++ l2 ++ l3 ∧
      (∀ e ∈ l1, e.isConsumerClose = true) ∧
      (∀ e ∈ l2, e.isProducerClose = true) ∧
      (∀ e ∈ l3, e.isTransportClose = true)) := by
  refine ⟨rfl, rfl, rfl, ?_, ?_, ?_, ?_⟩
  · intro e he
    exact List.mem_append.mpr (Or.inl (List.mem_append.mpr
      (Or.inl (List.mem_map.mpr ⟨e, he, rfl⟩))))
  · intro e he
    exact List.mem_append.mpr (Or.inl (List.mem_append.mpr
      (Or.inr (List.mem_map.mpr ⟨e, he, rfl⟩))))
  · intro e he
    exact List.mem_append.mpr (Or.inr (List.mem_map.mpr ⟨e, he, rfl⟩))
  · refine ⟨_, _, _, rfl, ?_, ?_, ?_⟩
    · intro e he
      rcases List.mem_map.mp he with ⟨x, hx, hfx⟩
      rw [← hfx]
      rfl
    · intro e he
      rcases List.mem_map.mp he with ⟨x, hx, hfx⟩
      rw [← hfx]
      rfl
    · intro e he
      rcases List.mem_map.mp he with ⟨x, hx, hfx⟩
      rw [← hfx]
      rfl

/-- Concrete participant used by witnesses: one transport, one producer
whose `close()` throws, one consumer. -/
def samplePart : Participant :=
  { userId := "u1", socketId := "s1", name := "Ann", role := "student",
    transports := [("t1", { id := "t1", kind := "", closeFails := false })],
    producers := [("p1", { id := "p1", kind := "video", closeFails := true })],
    consumers := [("c1", { id := "c1", kind := "audio", closeFails := false })],
    rtpCapabilities := none }

theorem C3_cleanup_contract_witness :
    (cleanupParticipant samplePart).1.consumers = [] ∧
    CloseEvent.closeProducer "p1" true ∈ (cleanupParticipant samplePart).2 := by
  have h := C3_cleanup_contract samplePart
  refine ⟨h.1, ?_⟩
  exact h.2.2.2.2.1 ("p1", { id := "p1", kind := "video", closeFails := true })
    (by simp [samplePart])

/-- C5: for a connection id absent from the index, `removeUserFromRoom`
returns `null` with the registry untouched and no close traced, and the
`leaveRoom` and `disconnect` handlers do nothing: no callback, no error,
no `userLeft` emission. -/
theorem C5_idempotent_double_removal (s : RoomService) (socketId : String)
    (h : getA socketId s.users = none) :
    removeUserFromRoom s socketId = (s, none, []) ∧
    leaveRoomHandler s socketId = (s, none, []) ∧
    disconnectHandler s socketId = (s, []) := by
  have h1 : removeUserFromRoom s socketId = (s, none, []) := by
    simp [removeUserFromRoom, h]
  refine ⟨h1, ?_, ?_⟩
  · simp [leaveRoomHandler, h1]
  · simp [disconnectHandler, h1]

theorem C5_idempotent_double_removal_witness :
    removeUserFromRoom RoomService.init "sockX" =
      (RoomService.init, none, []) ∧
    leaveRoomHandler RoomService.init "sockX" =
      (RoomService.init, none, []) := by
  have h := C5_idempotent_double_removal RoomService.init "sockX" rfl
  exact ⟨h.1, h.2.1⟩

/-- C7: when `canConsume` answers false, the consume handler leaves the
registry unchanged, returns an error acknowledgement, and never reaches the
media-engine `consume` call (so no consumer handle is stored). -/
theorem C7_consume_precondition (s : RoomService)
    (socketId transportId producerId : String) (consumer : Handle) :
    (consumeHandler s socketId transportId producerId false consumer).1 = s ∧
    (consumeHandler s socketId transportId producerId false
      consumer).2.1.isError = true ∧
    (consumeHandler s socketId transportId producerId false consumer).2.2
      = false := by
  cases hu : getUserBySocketId s socketId with
  | none => simp [consumeHandler, hu, Ack.isError]
  | some user =>
    cases ht : getTransport s user.roomId user.userId transportId with
    | none => simp [consumeHandler, hu, ht, Ack.isError]
    | some t => simp [consumeHandler, hu, ht, Ack.isError]

/-- C10: a createRoom request from a non-teacher is rejected outright: the
handler returns the role error with the registry exactly as it was, and its
trace is empty — the scheduling oracle is never consulted and no registry
mutation happens. -/
theorem C10_teacher_only_creation (canAccess : Bool) (user : SocketUser)
    (socketId roomId : String) (s : RoomService)
    (h : user.role ≠ "teacher") :
    createRoomHandler canAccess user socketId roomId s =
      (s, Ack.error "Only teachers can create rooms", []) := by
  simp [createRoomHandler, h]

theorem C10_teacher_only_creation_witness :
    createRoomHandler true { uid := "u9", name := "Stu", role := "student" }
      "sock9" "r9" RoomService.init =
      (RoomService.init, Ack.error "Only teachers can create rooms", []) := by
  exact C10_teacher_only_creation true _ "sock9" "r9" RoomService.init
    (by decide)

/-- C2: on every create and join request, any registry mutation in the
handler trace happens after the scheduling-oracle consultation, and a
rejecting oracle answer makes the handler return the permission error with
the rooms map and the connection index exactly as they were (no room
created, no participant added, nothing emitted). -/
theorem C2_authorization_gate (canAccess : Bool) (user : SocketUser)
    (socketId roomId : String) (s : RoomService) :
    consultPrecedesMutation
      (createRoomHandler canAccess user socketId roomId s).2.2 = true ∧
    consultPrecedesMutation
      (joinRoomHandler canAccess user socketId roomId s).2.2 = true ∧
    (canAccess = false →
      (user.role = "teacher" →
        createRoomHandler canAccess user socketId roomId s =
          (s, Ack.error "You do not have permission to create this room",
            [TraceEv.oracleConsult user.uid roomId user.role])) ∧
      joinRoomHandler canAccess user socketId roomId s =
        (s, Ack.error "You do not have permission to join this room",
          [TraceEv.oracleConsult user.uid roomId user.role])) := by
  refine ⟨?_, ?_, ?_⟩
  · simp only [createRoomHandler]
    split
    · rfl
    · split
      · rfl
      · rfl
  · simp only [joinRoomHandler]
    split
    · rfl
    · split
      · rfl
      · rfl
  · intro hca
    subst hca
    constructor
    · intro hrole
      simp [createRoomHandler, hrole]
    · simp [joinRoomHandler]

theorem C2_authorization_gate_witness :
    createRoomHandler false { uid := "t1", name := "Tea", role := "teacher" }
      "sock2" "r2" RoomService.init =
      (RoomService.init,
        Ack.error "You do not have permission to create this room",
        [TraceEv.oracleConsult "t1" "r2" "teacher"]) ∧
    joinRoomHandler false { uid := "t1", name := "Tea", role := "teacher" }
      "sock2" "r2" RoomService.init =
      (RoomService.init,
        Ack.error "You do not have permission to join this room",
        [TraceEv.oracleConsult "t1" "r2" "teacher"]) := by
  have h := (C2_authorization_gate false
    { uid := "t1", name := "Tea", role := "teacher" } "sock2" "r2"
    RoomService.init).2.2 rfl
  exact ⟨h.1 rfl, h.2⟩

/-- C6: `getRoomProducers(roomId, excluding = X)` contains no entry owned by
X and, for every other participant of the room, one entry per stored
producer, carrying the producer id and kind and the owner id, name and
role. -/
theorem C6_producer_visibility (s : RoomService) (roomId xId : String)
    (room : Room) (h : getA roomId s.rooms = some room) :
    (∀ info ∈ getRoomProducers s roomId (some xId), info.userId ≠ xId) ∧
    (∀ e ∈ room.participants, e.1 ≠ xId →
      ∀ pe ∈ e.2.producers,
        ({ id := pe.2.id, kind := pe.2.kind, userId := e.1,
           userName := e.2.name, userRole := e.2.role } : ProducerInfo) ∈
          getRoomProducers s roomId (some xId)) := by
  constructor
  · intro info hinfo
    simp only [getRoomProducers, h] at hinfo
    rcases List.mem_flatMap.mp hinfo with ⟨entry, hentry, hin⟩
    by_cases hx : some entry.1 = some xId
    · rw [if_pos hx] at hin
      simp at hin
    · rw [if_neg hx] at hin
      rcases List.mem_map.mp hin with ⟨pe, hpe, hfe⟩
      rw [← hfe]
      intro hbad
      exact hx (congrArg some hbad)
  · intro e he hne pe hpe
    simp only [getRoomProducers, h]
    refine List.mem_flatMap.mpr ⟨e, he, ?_⟩
    rw [if_neg (fun hh => hne (Option.some.inj hh))]
    exact List.mem_map.mpr ⟨pe, hpe, rfl⟩

/-- Concrete two-participant room used by the C6 witness: the teacher u1
owns producer p1, the student u2 owns producer p2. -/
def teaPart : Participant :=
  { userId := "u1", socketId := "sockT", name := "Tea", role := "teacher",
    transports := [],
    producers := [("p1", { id := "p1", kind := "audio", closeFails := false })],
    consumers := [], rtpCapabilities := none }

def bobPart : Participant :=
  { userId := "u2", socketId := "sockB", name := "Bob", role := "student",
    transports := [],
    producers := [("p2", { id := "p2", kind := "video", closeFails := false })],
    consumers := [], rtpCapabilities := none }

def prodRoom : Room :=
  { id := "r1", participants := [("u1", teaPart), ("u2", bobPart)] }

def prodState : RoomService := { rooms := [("r1", prodRoom)], users := [] }

theorem C6_producer_visibility_witness :
    ({ id := "p2", kind := "video", userId := "u2", userName := "Bob",
       userRole := "student" } : ProducerInfo) ∈
      getRoomProducers prodState "r1" (some "u1") ∧
    (∀ info ∈ getRoomProducers prodState "r1" (some "u1"),
      info.userId ≠ "u1") := by
  have h := C6_producer_visibility prodState "r1" "u1" prodRoom rfl
  refine ⟨?_, h.1⟩
  exact h.2 ("u2", bobPart) (by decide) (by decide)
    ("p2", { id := "p2", kind := "video", closeFails := false }) (by decide)

/-- C8: re-adding an already present participant id replaces the stored
record with a fresh one (empty transport, producer and consumer maps, the
new connection id) and traces no `close()` at all: the old record's handles
are dropped without being released. -/
theorem C8_duplicate_join_overwrite (s : RoomService)
    (roomId userId socketId : String) (info : UserInfo) (room : Room)
    (oldP : Participant) (h1 : getA roomId s.rooms = some room)
    (h2 : getA userId room.participants = some oldP) :
    (addUserToRoom s roomId userId socketId info).2.1 =
      { userId := userId, socketId := socketId, name := info.name,
        role := info.role, transports := [], producers := [],
        consumers := [], rtpCapabilities := none } ∧
    getParticipant (addUserToRoom s roomId userId socketId info).1
        roomId userId =
      some
        { userId := userId, socketId := socketId, name := info.name,
          role := info.role, transports := [], producers := [],
          consumers := [], rtpCapabilities := none } ∧
    (addUserToRoom s roomId userId socketId info).2.2 = [] := by
  refine ⟨rfl, ?_, rfl⟩
  simp [addUserToRoom, createRoom, h1, getParticipant, getRoom,
    getA_setA_self]

theorem C8_duplicate_join_overwrite_witness :
    (addUserToRoom annState "r1" "u1" "sock2"
      { name := "Ann", role := "student" }).2.2 = [] ∧
    getParticipant (addUserToRoom annState "r1" "u1" "sock2"
      { name := "Ann", role := "student" }).1 "r1" "u1" =
      some
        { userId := "u1", socketId := "sock2", name := "Ann",
          role := "student", transports := [], producers := [],
          consumers := [], rtpCapabilities := none } := by
  have h := C8_duplicate_join_overwrite annState "r1" "u1" "sock2"
    { name := "Ann", role := "student" } annRoom annPart rfl rfl
  exact ⟨h.2.2, h.2.1⟩

/-- C9: a valid (non-empty trimmed) chat message from a joined sender is
acknowledged with the built message and emitted exactly once to the
sender's whole room, and a failing persistence call changes neither the
acknowledgement nor the broadcast; every participant of the room
(the sender among them) is a recipient of that broadcast. -/
theorem C9_chat_persistence_insulation (s : RoomService)
    (socketId text msgId timestamp : String) (user : UserEntry)
    (h1 : getUserBySocketId s socketId = some user)
    (h2 : (jsTrim text).length ≠ 0) :
    (chatMessageHandler s socketId text true msgId timestamp).1 =
      (chatMessageHandler s socketId text false msgId timestamp).1 ∧
    (chatMessageHandler s socketId text true msgId timestamp).2.1 =
      (chatMessageHandler s socketId text false msgId timestamp).2.1 ∧
    (chatMessageHandler s socketId text true msgId timestamp).1 =
      Ack.okMessage
        { id := msgId, userId := user.userId, name := user.name,
          role := user.role, text := jsTrim text, timestamp := timestamp } ∧
    (chatMessageHandler s socketId text true msgId timestamp).2.1 =
      [TraceEv.emitChatMessage user.roomId
        { id := msgId, userId := user.userId, name := user.name,
          role := user.role, text := jsTrim text, timestamp := timestamp }] ∧
    (∀ room, getA user.roomId s.rooms = some room →
      ∀ e ∈ room.participants,
        e.2.socketId ∈ broadcastRecipients s user.roomId) := by
  refine ⟨?_, ?_, ?_, ?_, ?_⟩
  · simp [chatMessageHandler, h1, h2]
  · simp [chatMessageHandler, h1, h2]
  · simp [chatMessageHandler, h1, h2]
  · simp [chatMessageHandler, h1, h2]
  · intro room hr e he
    simp only [broadcastRecipients, hr]
    exact List.mem_map.mpr ⟨e, he, rfl⟩

theorem C9_chat_persistence_insulation_witness :
    (chatMessageHandler annState "sock1" "hello" true "m1" "ts").1 =
      (chatMessageHandler annState "sock1" "hello" false "m1" "ts").1 ∧
    (chatMessageHandler annState "sock1" "hello" true "m1" "ts").2.1 =
      (chatMessageHandler annState "sock1" "hello" false "m1" "ts").2.1 ∧
    "sock1" ∈ broadcastRecipients annState "r1" := by
  have h := C9_chat_persistence_insulation annState "sock1" "hello" "m1"
    "ts" annEntry rfl (by decide)
  refine ⟨h.1, h.2.1, ?_⟩
  exact h.2.2.2.2 annRoom rfl ("u1", annPart) (by decide)

/-- Number of connection-index entries that reference the participant
(rid, uid). -/
def refCount (users : List (String × UserEntry)) (rid uid : String) : Nat :=
  users.countP (fun kv => kv.2.roomId == rid && kv.2.userId == uid)

/-- Every connection-index entry resolves to an existing participant of an
existing room. -/
def usersPointOk (s : RoomService) : Prop :=
  ∀ kv ∈ s.users, ∃ room, getA kv.2.roomId s.rooms = some room ∧
    (getA kv.2.userId room.participants).isSome = true

/-- Every participant of every room is referenced by exactly one
connection-index entry. -/
def uniqueRef (s : RoomService) : Prop :=
  ∀ re ∈ s.rooms, ∀ pe ∈ re.2.participants,
    refCount s.users re.1 pe.1 = 1

/-- Mutual consistency of the rooms map and the connection index, as the
specification states it. -/
def consistentIndex (s : RoomService) : Prop :=
  usersPointOk s ∧ uniqueRef s

/-- Internal strengthening used in the induction: consistency plus
duplicate-free keys in both maps. -/
def goodIndex (s : RoomService) : Prop :=
  consistentIndex s ∧ (s.users.map Prod.fst).Nodup ∧
    (s.rooms.map Prod.fst).Nodup

/-- Registry-level operation (the two mutating `RoomService` operations the
claim quantifies over). -/
inductive RegOp where
  | add (roomId userId socketId : String) (info : UserInfo)
  | remove (socketId : String)
deriving Repr, DecidableEq

def applyRegOp (s : RoomService) : RegOp → RoomService
  | RegOp.add rid uid sock info => (addUserToRoom s rid uid sock info).1
  | RegOp.remove sock => (removeUserFromRoom s sock).1

def runReg : RoomService → List RegOp → RoomService
  | s, [] => s
  | s, op :: rest => runReg (applyRegOp s op) rest

/-- An add is fresh when its connection id is not in the index and its
participant id is not in the target room. -/
def freshAdd (s : RoomService) (rid uid sock : String) : Bool :=
  (getA sock s.users).isNone &&
    (match getA rid s.rooms with
     | some room => (getA uid room.participants).isNone
     | none => true)

/-- All adds along the sequence are fresh at the state where they run. -/
def goodSeq : RoomService → List RegOp → Prop
  | _, [] => True
  | s, RegOp.add rid uid sock info :: rest =>
      freshAdd s rid uid sock = true ∧
        goodSeq (applyRegOp s (RegOp.add rid uid sock info)) rest
  | s, RegOp.remove sock :: rest =>
      goodSeq (applyRegOp s (RegOp.remove sock)) rest

theorem refCount_append_single (users : List (String × UserEntry))
    (sock : String) (entry : UserEntry) (r u : String) :
    refCount (users ++ [(sock, entry)]) r u =
      refCount users r u +
        (if entry.roomId = r ∧ entry.userId = u then 1 else 0) := by
  unfold refCount
  rw [List.countP_append]
  congr 1
  by_cases h1 : entry.roomId = r <;> by_cases h2 : entry.userId = u <;>
    simp [List.countP_cons, h1, h2]

theorem refCount_delA_entry {users : List (String × UserEntry)}
    {sock : String} {entry : UserEntry}
    (hund : (users.map Prod.fst).Nodup) (hu : getA sock users = some entry)
    (r u : String) :
    refCount users r u =
      refCount (delA sock users) r u +
        (if entry.roomId = r ∧ entry.userId = u then 1 else 0) := by
  unfold refCount
  rw [countP_delA hund hu]
  congr 1
  by_cases h1 : entry.roomId = r <;> by_cases h2 : entry.userId = u <;>
    simp [h1, h2]

theorem refCount_eq_zero {users : List (String × UserEntry)} {r u : String}
    (hz : ∀ kv ∈ users, ¬(kv.2.roomId = r ∧ kv.2.userId = u)) :
    refCount users r u = 0 := by
  unfold refCount
  rw [List.countP_eq_zero]
  intro a ha
  have hna := hz a ha
  simp only [Bool.and_eq_true, beq_iff_eq]
  exact fun hand => hna hand

theorem goodIndex_insert {s : RoomService} {rid uid sock : String}
    {entry : UserEntry} {room2 : Room} {p2 : Participant}
    {oldParts : List (String × Participant)}
    (he1 : entry.roomId = rid) (he2 : entry.userId = uid)
    (hs : getA sock s.users = none)
    (hold : ∀ room, getA rid s.rooms = some room →
      room.participants = oldParts)
    (hold2 : getA rid s.rooms = none → oldParts = [])
    (hroom2 : room2.participants = oldParts ++ [(uid, p2)])
    (hfresh : getA uid oldParts = none)
    (hg : goodIndex s) :
    goodIndex { rooms := setA rid room2 s.rooms,
                users := s.users ++ [(sock, entry)] } := by
  obtain ⟨⟨hpoint, huniq⟩, hundU, hundR⟩ := hg
  refine ⟨⟨?_, ?_⟩, ?_, ?_⟩
  · -- usersPointOk
    intro kv hkv
    dsimp only at hkv ⊢
    rcases List.mem_append.mp hkv with holdm | hnew
    · obtain ⟨room, hr, hp⟩ := hpoint kv holdm
      by_cases hkr : kv.2.roomId = rid
      · rcases Option.isSome_iff_exists.mp hp with ⟨v, hv⟩
        have hv2 : getA kv.2.userId oldParts = some v := by
          rw [← hold room (hkr ▸ hr)]
          exact hv
        refine ⟨room2, ?_, ?_⟩
        · rw [hkr]
          exact getA_setA_self _ _ _
        · rw [hroom2, getA_append, hv2]
          rfl
      · refine ⟨room, ?_, hp⟩
        rw [getA_setA_ne hkr]
        exact hr
    · have hkv2 : kv = (sock, entry) := List.mem_singleton.mp hnew
      subst hkv2
      refine ⟨room2, ?_, ?_⟩
      · show getA entry.roomId (setA rid room2 s.rooms) = some room2
        rw [he1]
        exact getA_setA_self _ _ _
      · show (getA entry.userId room2.participants).isSome = true
        rw [he2, hroom2, getA_append, hfresh]
        simp [getA]
  · -- uniqueRef
    intro re hre pe hpe
    dsimp only at hre hpe ⊢
    rw [refCount_append_single]
    rcases mem_setA_nodup hundR hre with hcase | ⟨hmem, hne⟩
    · subst hcase
      dsimp only at hpe ⊢
      have hpe2 : pe ∈ oldParts ++ [(uid, p2)] := by
        have hx : pe ∈ room2.participants := hpe
        rwa [hroom2] at hx
      rcases List.mem_append.mp hpe2 with holdp | hnewp
      · have hpne : pe.1 ≠ uid := fun hh =>
          (getA_eq_none_iff.mp hfresh)
            (hh ▸ List.mem_map.mpr ⟨pe, holdp, rfl⟩)
        cases hrr : getA rid s.rooms with
        | none =>
          rw [hold2 hrr] at holdp
          simp at holdp
        | some room =>
          have h1 : refCount s.users rid pe.1 = 1 :=
            huniq (rid, room) (mem_of_getA hrr) pe
              (by rw [hold room hrr]; exact holdp)
          rw [if_neg (fun hand => hpne (he2.symm.trans hand.2).symm)]
          omega
      · have hpe3 : pe = (uid, p2) := List.mem_singleton.mp hnewp
        subst hpe3
        dsimp only
        have h0 : refCount s.users rid uid = 0 := by
          refine refCount_eq_zero ?_
          rintro kv hkv ⟨hkr, hku⟩
          obtain ⟨room, hr, hp⟩ := hpoint kv hkv
          rw [hkr] at hr
          rw [hold room hr, hku, hfresh] at hp
          simp at hp
        rw [h0, if_pos ⟨he1, he2⟩]
    · have h1 := huniq re hmem pe hpe
      rw [if_neg (fun hand => hne (hand.1.symm.trans he1))]
      omega
  · -- users keys Nodup
    dsimp only
    rw [List.map_append]
    refine List.nodup_append.mpr ⟨hundU, List.nodup_singleton _, ?_⟩
    intro a ha hb
    simp only [List.map_cons, List.map_nil, List.mem_singleton] at hb
    subst hb
    exact (getA_eq_none_iff.mp hs) ha
  · -- rooms keys Nodup
    dsimp only
    exact nodup_keys_setA hundR

theorem goodIndex_add {s : RoomService} {rid uid sock : String}
    (info : UserInfo) (hg : goodIndex s)
    (hf : freshAdd s rid uid sock = true) :
    goodIndex (addUserToRoom s rid uid sock info).1 := by
  have hf2 := (Bool.and_eq_true _ _).mp hf
  have hs : getA sock s.users = none := Option.isNone_iff_eq_none.mp hf2.1
  cases hr : getA rid s.rooms with
  | some room =>
    have hfresh : getA uid room.participants = none := by
      have hx := hf2.2
      rw [hr] at hx
      exact Option.isNone_iff_eq_none.mp hx
    simp only [addUserToRoom, createRoom, hr]
    rw [setA_eq_append hs, setA_eq_append hfresh]
    refine goodIndex_insert rfl rfl hs ?_ ?_ rfl hfresh hg
    · intro r hr2
      rw [Option.some.inj (hr2.symm.trans hr)]
    · intro hn
      rw [hn] at hr
      exact Option.noConfusion hr
  | none =>
    have hfresh0 : getA uid ([] : List (String × Participant)) = none := rfl
    simp only [addUserToRoom, createRoom, hr]
    rw [setA_setA, setA_eq_append hs]
    refine goodIndex_insert rfl rfl hs ?_ ?_ rfl hfresh0 hg
    · intro r hr2
      rw [hr] at hr2
      exact Option.noConfusion hr2
    · intro _
      rfl

theorem goodIndex_remove {s : RoomService} (hg : goodIndex s)
    (sock : String) : goodIndex (removeUserFromRoom s sock).1 := by
  obtain ⟨⟨hpoint, huniq⟩, hundU, hundR⟩ := hg
  cases hu : getA sock s.users with
  | none =>
    simp only [removeUserFromRoom, hu]
    exact ⟨⟨hpoint, huniq⟩, hundU, hundR⟩
  | some user =>
    obtain ⟨room, hr, hp⟩ := hpoint (sock, user) (mem_of_getA hu)
    have hr2 : getA user.roomId s.rooms = some room := hr
    rcases Option.isSome_iff_exists.mp hp with ⟨p, hpart⟩
    have hpart2 : getA user.userId room.participants = some p := hpart
    have huser_unique : ∀ kv ∈ s.users, kv.1 ≠ sock →
        ¬(kv.2.roomId = user.roomId ∧ kv.2.userId = user.userId) := by
      intro kv hkv hkne hand
      have h1 : refCount s.users user.roomId user.userId = 1 :=
        huniq (user.roomId, room) (mem_of_getA hr2) (user.userId, p)
          (mem_of_getA hpart2)
      have h2 : 2 ≤ refCount s.users user.roomId user.userId := by
        unfold refCount
        refine two_le_countP (mem_of_getA hu) hkv
          (fun hh => hkne (congrArg Prod.fst hh).symm) ?_ ?_
        · simp
        · simp [hand.1, hand.2]
      omega
    simp only [removeUserFromRoom, hu, hr2, hpart2]
    split_ifs with hemp
    · have hempty : delA user.userId room.participants = [] :=
        List.isEmpty_iff.mp hemp
      refine ⟨⟨?_, ?_⟩, ?_, ?_⟩
      · intro kv hkv
        dsimp only at hkv ⊢
        obtain ⟨hkmem, hkne⟩ := mem_delA.mp hkv
        obtain ⟨room', hr', hp'⟩ := hpoint kv hkmem
        by_cases hkr : kv.2.roomId = user.roomId
        · have hroomeq : room' = room :=
            Option.some.inj ((hkr ▸ hr').symm.trans hr2)
          have hku : kv.2.userId ≠ user.userId := fun hh =>
            huser_unique kv hkmem hkne ⟨hkr, hh⟩
          rcases Option.isSome_iff_exists.mp hp' with ⟨v, hv⟩
          rw [hroomeq] at hv
          have hcontra : getA kv.2.userId
              (delA user.userId room.participants) = some v := by
            rw [getA_delA_ne hku]
            exact hv
          rw [hempty] at hcontra
          simp [getA] at hcontra
        · refine ⟨room', ?_, hp'⟩
          rw [getA_delA_ne hkr]
          exact hr'
      · intro re hre pe hpe
        dsimp only at hre hpe ⊢
        obtain ⟨hrm, hrne⟩ := mem_delA.mp hre
        have h1 := huniq re hrm pe hpe
        rw [refCount_delA_entry hundU hu re.1 pe.1] at h1
        rw [if_neg (fun hand => hrne hand.1.symm)] at h1
        omega
      · dsimp only
        exact nodup_keys_delA hundU
      · dsimp only
        exact nodup_keys_delA hundR
    · refine ⟨⟨?_, ?_⟩, ?_, ?_⟩
      · intro kv hkv
        dsimp only at hkv ⊢
        obtain ⟨hkmem, hkne⟩ := mem_delA.mp hkv
        obtain ⟨room', hr', hp'⟩ := hpoint kv hkmem
        by_cases hkr : kv.2.roomId = user.roomId
        · have hroomeq : room' = room :=
            Option.some.inj ((hkr ▸ hr').symm.trans hr2)
          have hku : kv.2.userId ≠ user.userId := fun hh =>
            huser_unique kv hkmem hkne ⟨hkr, hh⟩
          rcases Option.isSome_iff_exists.mp hp' with ⟨v, hv⟩
          rw [hroomeq] at hv
          refine
            ⟨{ id := room.id,
               participants := delA user.userId room.participants },
             ?_, ?_⟩
          · rw [hkr]
            exact getA_setA_self _ _ _
          · show (getA kv.2.userId
              (delA user.userId room.participants)).isSome = true
            rw [getA_delA_ne hku, hv]
            rfl
        · refine ⟨room', ?_, hp'⟩
          rw [getA_setA_ne hkr]
          exact hr'
      · intro re hre pe hpe
        dsimp only at hre hpe ⊢
        rcases mem_setA_nodup hundR hre with hcase | ⟨hmem2, hne2⟩
        · subst hcase
          dsimp only at hpe ⊢
          obtain ⟨hpm, hpne⟩ := mem_delA.mp hpe
          have h1 := huniq (user.roomId, room) (mem_of_getA hr2) pe hpm
          rw [refCount_delA_entry hundU hu user.roomId pe.1] at h1
          rw [if_neg (fun hand => hpne hand.2.symm)] at h1
          omega
        · have h1 := huniq re hmem2 pe hpe
          rw [refCount_delA_entry hundU hu re.1 pe.1] at h1
          rw [if_neg (fun hand => hne2 hand.1.symm)] at h1
          omega
      · dsimp only
        exact nodup_keys_delA hundU
      · dsimp only
        exact nodup_keys_setA hundR

theorem goodIndex_runReg {s : RoomService} (hg : goodIndex s)
    (ops : List RegOp) (h : goodSeq s ops) : goodIndex (runReg s ops) := by
  induction ops generalizing s with
  | nil => exact hg
  | cons op rest ih =>
    cases op with
    | add rid uid sock info => exact ih (goodIndex_add info hg h.1) h.2
    | remove sock => exact ih (goodIndex_remove hg sock) h

/-- Participant stored by the second duplicate add in the C4
counterexample. -/
def dupPart : Participant :=
  { userId := "u1", socketId := "s2", name := "Ann", role := "student",
    transports := [], producers := [], consumers := [],
    rtpCapabilities := none }

/-- Two joins of the same participant id on different connections. -/
def dupOps : List RegOp :=
  [RegOp.add "r1" "u1" "s1" { name := "Ann", role := "student" },
   RegOp.add "r1" "u1" "s2" { name := "Ann", role := "student" }]

/-- C4 fails as stated: after a duplicate join of the same participant id
under a second connection, the participant is referenced by two
connection-index entries, not exactly one. -/
theorem C4_consistency_counterexample :
    ¬ consistentIndex (runReg RoomService.init dupOps) := by
  intro h
  have h2 := h.2 ("r1", { id := "r1", participants := [("u1", dupPart)] })
    (by decide) ("u1", dupPart) (by decide)
  exact absurd h2 (by decide)

/-- C4 (amended): for every sequence of `addUserToRoom` and
`removeUserFromRoom` operations starting from the empty registry in which
every add uses a connection id absent from the index and a participant id
absent from the target room, the rooms map and the connection index stay
mutually consistent: every index entry resolves to an existing participant
of an existing room, and every participant of every room is referenced by
exactly one index entry. -/
theorem C4_connection_index_consistency (ops : List RegOp)
    (h : goodSeq RoomService.init ops) :
    consistentIndex (runReg RoomService.init ops) := by
  have hinit : goodIndex RoomService.init := by
    refine ⟨⟨?_, ?_⟩, ?_, ?_⟩
    · intro kv hkv
      simp [RoomService.init] at hkv
    · intro re hre
      simp [RoomService.init] at hre
    · simp [RoomService.init]
    · simp [RoomService.init]
  exact (goodIndex_runReg hinit ops h).1

theorem C4_connection_index_consistency_witness :
    consistentIndex (runReg RoomService.init
      [RegOp.add "r1" "u1" "s1" { name := "Ann", role := "student" },
       RegOp.add "r1" "u2" "s2" { name := "Bob", role := "student" },
       RegOp.remove "s1"]) := by
  exact C4_connection_index_consistency _ ⟨rfl, rfl, trivial⟩

end VideoConf
